import Mathlib

/-!
Verification of the linear MPC controller in src/Control/linear_mpc.py.
The Python source is shallowly embedded: machine floats become real
numbers, numpy arrays become lists or functions, in-place mutation
becomes explicit state passing, and the external cvxpy QP solver is an
opaque parameter returning a status together with variable values.
-/

/-- np.deg2rad. -/
noncomputable def deg2rad (d : ℝ) : ℝ := d * (Real.pi / 180)

namespace P

noncomputable def dt : ℝ := 0.2

def T : ℕ := 6

def MAX_ITER : ℕ := 5

noncomputable def DU_TH : ℝ := 0.1

def N_IND_SEARCH : ℕ := 10

noncomputable def WB : ℝ := 2.5

noncomputable def MAX_STEER : ℝ := deg2rad 45.0

noncomputable def MAX_DSTEER : ℝ := deg2rad 30.0

noncomputable def TARGET_SPEED : ℝ := 10.0 / 3.6

end P

/-- Wrap an angle from (-3pi, 3pi) into (-pi, pi], as the source pi_2_pi does. -/
noncomputable def pi_2_pi (angle : ℝ) : ℝ :=
  if angle > Real.pi then angle - 2.0 * Real.pi
  else if angle < -Real.pi then angle + 2.0 * Real.pi
  else angle

/-- Real-number semantics of math.atan2 (ignoring floating signed zeros). -/
noncomputable def atan2 (y x : ℝ) : ℝ :=
  if 0 < x then Real.arctan (y / x)
  else if x < 0 ∧ 0 ≤ y then Real.arctan (y / x) + Real.pi
  else if x < 0 ∧ y < 0 then Real.arctan (y / x) - Real.pi
  else if x = 0 ∧ 0 < y then Real.pi / 2
  else if x = 0 ∧ y < 0 then -(Real.pi / 2)
  else 0

/-- Python round: round half to even, as used by int(round(x)). -/
noncomputable def pyRound (x : ℝ) : ℤ :=
  if x - ⌊x⌋ = 1 / 2 then (if Even ⌊x⌋ then ⌊x⌋ else ⌊x⌋ + 1) else round x

/-- Python list indexing with a possibly negative index (negative counts
from the end); out-of-range reads default to 0 and are unreachable in the
theorems below. -/
noncomputable def pyGet (l : List ℝ) (i : ℤ) : ℝ :=
  if 0 ≤ i then l.getD i.toNat 0 else l.getD (i + l.length).toNat 0

/-- Vehicle state, fields as in the Node class of the source. -/
structure Node where
  x : ℝ
  y : ℝ
  yaw : ℝ
  v : ℝ
  direct : ℝ

/-- Node.limit_input: clamp steering to the actuator limit. -/
noncomputable def Node.limit_input (delta : ℝ) : ℝ :=
  if delta ≥ P.MAX_STEER then P.MAX_STEER
  else if delta ≤ -P.MAX_STEER then -P.MAX_STEER
  else delta

/-- Node.update: nonlinear discrete kinematic bicycle step.  The Python
method mutates the object in place; here it returns the new state.  x and
y are advanced with the old v and yaw, yaw with the old v, direct is
overwritten before it is used in the v update, exactly as the sequential
Python assignments do. -/
noncomputable def Node.update (n : Node) (a delta direct : ℝ) : Node :=
  let d := Node.limit_input delta
  { x := n.x + n.v * Real.cos n.yaw * P.dt
    y := n.y + n.v * Real.sin n.yaw * P.dt
    yaw := n.yaw + n.v / P.WB * Real.tan d * P.dt
    v := n.v + direct * a * P.dt
    direct := direct }

/-- calc_linear_discrete_model: the per-step affine model (A, B, C). -/
noncomputable def calc_linear_discrete_model (v phi delta : ℝ) :
    (Fin 4 → Fin 4 → ℝ) × (Fin 4 → Fin 2 → ℝ) × (Fin 4 → ℝ) :=
  (![![1.0, 0.0, P.dt * Real.cos phi, -P.dt * v * Real.sin phi],
     ![0.0, 1.0, P.dt * Real.sin phi, P.dt * v * Real.cos phi],
     ![0.0, 0.0, 1.0, 0.0],
     ![0.0, 0.0, P.dt * Real.tan delta / P.WB, 1.0]],
   ![![0.0, 0.0],
     ![0.0, 0.0],
     ![P.dt, 0.0],
     ![0.0, P.dt * v / (P.WB * Real.cos delta ^ 2)]],
   ![P.dt * v * Real.sin phi * phi,
     -P.dt * v * Real.cos phi * phi,
     0.0,
     -P.dt * v * delta / (P.WB * Real.cos delta ^ 2)])

/-- Evaluation of the affine model A z + B u + C at a state z and control u,
the matrix-vector products written as explicit dot products. -/
noncomputable def affineEval (A : Fin 4 → Fin 4 → ℝ) (B : Fin 4 → Fin 2 → ℝ)
    (C : Fin 4 → ℝ) (z : Fin 4 → ℝ) (u : Fin 2 → ℝ) : Fin 4 → ℝ :=
  fun i => (∑ j, A i j * z j) + (∑ j, B i j * u j) + C i

lemma limit_input_eq_self {delta : ℝ} (h : |delta| ≤ P.MAX_STEER) :
    Node.limit_input delta = delta := by
  have h1 := abs_le.mp h
  unfold Node.limit_input
  split
  · linarith [h1.2]
  · split
    · linarith [h1.1]
    · rfl

/-- Claim C2: for every operating point (v, phi, delta) with
abs delta ≤ MAX_STEER and cos delta ≠ 0, and every acceleration a,
evaluating A z + B u + C from calc_linear_discrete_model v phi delta at
z = (x, y, v, phi) and u = (a, delta) yields exactly the state produced
by Node.update a delta 1 from that state. -/
theorem C2_linearization_exact_at_operating_point
    (v phi delta x y a : ℝ) (hs : |delta| ≤ P.MAX_STEER)
    (hc : Real.cos delta ≠ 0) :
    affineEval (calc_linear_discrete_model v phi delta).1
      (calc_linear_discrete_model v phi delta).2.1
      (calc_linear_discrete_model v phi delta).2.2
      ![x, y, v, phi] ![a, delta]
    = ![(Node.update ⟨x, y, phi, v, 1⟩ a delta 1).x,
        (Node.update ⟨x, y, phi, v, 1⟩ a delta 1).y,
        (Node.update ⟨x, y, phi, v, 1⟩ a delta 1).v,
        (Node.update ⟨x, y, phi, v, 1⟩ a delta 1).yaw] := by
  funext i
  have hd : Node.limit_input delta = delta := limit_input_eq_self hs
  fin_cases i <;>
    simp [affineEval, calc_linear_discrete_model, Node.update, hd,
      Fin.sum_univ_four, Fin.sum_univ_two, Matrix.cons_val_zero,
      Matrix.cons_val_one, Matrix.head_cons, Matrix.cons_val_two,
      Matrix.cons_val_three, Matrix.vecTail, Matrix.vecHead] <;>
    ring

/-- Witness for C2 at the concrete operating point v = 1, phi = 0,
delta = 0, state x = 0, y = 0, acceleration a = 1. -/
theorem C2_witness :
    |(0 : ℝ)| ≤ P.MAX_STEER ∧ Real.cos 0 ≠ 0 ∧
    affineEval (calc_linear_discrete_model 1 0 0).1
      (calc_linear_discrete_model 1 0 0).2.1
      (calc_linear_discrete_model 1 0 0).2.2
      ![0, 0, 1, 0] ![1, 0]
    = ![(Node.update ⟨0, 0, 0, 1, 1⟩ 1 0 1).x,
        (Node.update ⟨0, 0, 0, 1, 1⟩ 1 0 1).y,
        (Node.update ⟨0, 0, 0, 1, 1⟩ 1 0 1).v,
        (Node.update ⟨0, 0, 0, 1, 1⟩ 1 0 1).yaw] := by
  have h1 : |(0 : ℝ)| ≤ P.MAX_STEER := by
    rw [abs_zero]
    unfold P.MAX_STEER deg2rad
    positivity
  have h2 : Real.cos 0 ≠ 0 := by
    rw [Real.cos_zero]; norm_num
  exact ⟨h1, h2, C2_linearization_exact_at_operating_point 1 0 0 0 0 1 h1 h2⟩

/-- Reference path with the stateful nearest-search cursor, as the PATH
class of the source.  The stored length of the Python object always
equals the length of cx, so it is a derived field here. -/
structure PATH where
  cx : List ℝ
  cy : List ℝ
  cyaw : List ℝ
  ck : List ℝ
  ind_old : ℕ

def PATH.length (p : PATH) : ℕ := p.cx.length

/-- Index of the first minimal element of a list, the semantics of
np.argmin (0 on the empty list, where numpy would raise instead). -/
noncomputable def argminList : List ℝ → ℕ
  | [] => 0
  | [_] => 0
  | x :: y :: rest =>
    if x ≤ (y :: rest).getD (argminList (y :: rest)) 0 then 0
    else argminList (y :: rest) + 1

lemma argminList_lt_length : ∀ (l : List ℝ), l ≠ [] → argminList l < l.length
  | [x], _ => by simp [argminList]
  | x :: y :: rest, _ => by
    rw [argminList]
    split
    · simp
    · have ih := argminList_lt_length (y :: rest) (by simp)
      simpa using Nat.succ_lt_succ ih

/-- PATH.nearest_index: windowed nearest-point search.  Returns the pair
(index, signed lateral distance) together with the PATH carrying the
advanced cursor (the Python method mutates self.ind_old). -/
noncomputable def PATH.nearest_index (p : PATH) (node : Node) :
    (ℕ × ℝ) × PATH :=
  let cxw := (p.cx.drop p.ind_old).take P.N_IND_SEARCH
  let cyw := (p.cy.drop p.ind_old).take P.N_IND_SEARCH
  let dx := cxw.map (fun x => node.x - x)
  let dy := cyw.map (fun y => node.y - y)
  let dist := List.zipWith (fun a b => Real.sqrt (a ^ 2 + b ^ 2)) dx dy
  let i := argminList dist
  let dist_min := dist.getD i 0
  let ind := i + p.ind_old
  let dxl := p.cx.getD ind 0 - node.x
  let dyl := p.cy.getD ind 0 - node.y
  let angle := pi_2_pi (p.cyaw.getD ind 0 - atan2 dyl dxl)
  let dmin := if angle < 0 then -dist_min else dist_min
  ((ind, dmin), { p with ind_old := ind })

/-- Claim C8: the search cursor never decreases: each nearest_index call
leaves ind_old at least as large as before, hence along any sequence of
calls on the same PATH the cursor is non-decreasing. -/
theorem C8_cursor_monotone (p : PATH) (node : Node) :
    p.ind_old ≤ ((p.nearest_index node).2).ind_old := by
  show p.ind_old ≤ _ + p.ind_old
  exact Nat.le_add_left _ _

/-- Claim C9: with non-empty parallel sample arrays and a cursor within
range, nearest_index returns an index between the old cursor and the last
sample, so the subsequent cx, cy, cyaw accesses are in bounds. -/
theorem C9_nearest_index_in_bounds (p : PATH) (node : Node)
    (h0 : p.cx ≠ []) (h2 : p.cy.length = p.cx.length)
    (h3 : p.cyaw.length = p.cx.length)
    (h4 : p.ind_old ≤ p.cx.length - 1) :
    p.ind_old ≤ (p.nearest_index node).1.1 ∧
    (p.nearest_index node).1.1 ≤ p.cx.length - 1 ∧
    (p.nearest_index node).1.1 < p.cx.length ∧
    (p.nearest_index node).1.1 < p.cy.length ∧
    (p.nearest_index node).1.1 < p.cyaw.length := by
  have hlen : 0 < p.cx.length := List.length_pos.mpr h0
  have hio : p.ind_old < p.cx.length := by omega
  set cxw := (p.cx.drop p.ind_old).take P.N_IND_SEARCH with hcxw
  set cyw := (p.cy.drop p.ind_old).take P.N_IND_SEARCH with hcyw
  set dx := cxw.map (fun x => node.x - x) with hdx
  set dy := cyw.map (fun y => node.y - y) with hdy
  set dist := List.zipWith (fun a b => Real.sqrt (a ^ 2 + b ^ 2)) dx dy
    with hdist
  have hind : (p.nearest_index node).1.1 = argminList dist + p.ind_old := rfl
  have hcxwlen : cxw.length = min P.N_IND_SEARCH (p.cx.length - p.ind_old) :=
    by simp [hcxw]
  have hcywlen : cyw.length = min P.N_IND_SEARCH (p.cy.length - p.ind_old) :=
    by simp [hcyw]
  have hdistlen : dist.length = min cxw.length cyw.length := by
    simp [hdist, hdx, hdy]
  have hpos : dist ≠ [] := by
    have : 0 < dist.length := by
      rw [hdistlen, hcxwlen, hcywlen, h2]
      have h10 : 0 < P.N_IND_SEARCH := by norm_num [P.N_IND_SEARCH]
      omega
    exact List.ne_nil_of_length_pos this
  have harg : argminList dist < dist.length := argminList_lt_length dist hpos
  have hb : argminList dist < p.cx.length - p.ind_old := by
    have : dist.length ≤ p.cx.length - p.ind_old := by
      rw [hdistlen, hcxwlen, hcywlen, h2]; omega
    omega
  rw [hind]
  omega

/-- Witness for C9 on a concrete two-sample path with the cursor at 0. -/
theorem C9_witness :
    (⟨[0, 1], [0, 0], [0, 0], [0, 0], 0⟩ : PATH).cx ≠ [] ∧
    (PATH.nearest_index ⟨[0, 1], [0, 0], [0, 0], [0, 0], 0⟩
        ⟨0, 0, 0, 0, 1⟩).1.1 ≤ 1 := by
  have h0 : (⟨[0, 1], [0, 0], [0, 0], [0, 0], 0⟩ : PATH).cx ≠ [] := by
    simp
  have h := C9_nearest_index_in_bounds
    ⟨[0, 1], [0, 0], [0, 0], [0, 0], 0⟩ ⟨0, 0, 0, 0, 1⟩
    h0 rfl rfl (by norm_num)
  exact ⟨h0, h.2.1⟩

lemma MAX_STEER_eq : P.MAX_STEER = Real.pi / 4 := by
  unfold P.MAX_STEER deg2rad
  ring

/-- Counterexample to claim C6: from the state with yaw = pi (inside
the interval (-pi, pi]) and v = WB, one update with steering pi/4 and
forward gear leaves the interval: the new yaw is pi + 1/5. -/
theorem C6_counterexample :
    (⟨0, 0, Real.pi, P.WB, 1⟩ : Node).yaw ∈ Set.Ioc (-Real.pi) Real.pi ∧
    (Node.update ⟨0, 0, Real.pi, P.WB, 1⟩ 0 (Real.pi / 4) 1).yaw ∉
      Set.Ioc (-Real.pi) Real.pi := by
  have hpi := Real.pi_pos
  constructor
  · exact ⟨by linarith, le_refl _⟩
  · have hlim : Node.limit_input (Real.pi / 4) = Real.pi / 4 := by
      apply limit_input_eq_self
      rw [MAX_STEER_eq, abs_of_pos (by linarith)]
    have hya : (Node.update ⟨0, 0, Real.pi, P.WB, 1⟩ 0 (Real.pi / 4) 1).yaw
        = Real.pi + 1 / 5 := by
      show Real.pi + P.WB / P.WB * Real.tan (Node.limit_input (Real.pi / 4))
          * P.dt = Real.pi + 1 / 5
      rw [hlim, Real.tan_pi_div_four]
      unfold P.WB P.dt
      norm_num
    rw [hya]
    intro hmem
    have := hmem.2
    linarith

/-- Claim C6 amended: Node.update applies no wrapping to yaw; the new
yaw is exactly the old yaw plus v / WB * tan(clamped steering) * dt, and
may therefore leave (-pi, pi]. -/
theorem C6_yaw_unwrapped (n : Node) (a delta direct : ℝ) :
    (n.update a delta direct).yaw
      = n.yaw + n.v / P.WB * Real.tan (Node.limit_input delta) * P.dt := rfl

/-- Loop body of calc_speed_profile over the path samples zipped as
(x, y, yaw) triples, threading the mutable direction flag.  One entry is
produced per loop index i in range(len(cx) - 1); the final sample, which
the loop never reaches, is forced to 0, as the closing assignment
speed_profile[-1] = 0.0 does. -/
noncomputable def spLoop (ts : ℝ) : List (ℝ × ℝ × ℝ) → ℝ → List ℝ
  | (x0, y0, w0) :: (x1, y1, w1) :: rest, direction =>
    let dx := x1 - x0
    let dy := y1 - y0
    let move_direction := atan2 dy dx
    let direction2 :=
      if dx ≠ 0 ∧ dy ≠ 0 then
        if |pi_2_pi (move_direction - w0)| ≥ Real.pi / 4 then (-1 : ℝ)
        else 1
      else direction
    (if direction2 ≠ 1 then -ts else ts) ::
      spLoop ts ((x1, y1, w1) :: rest) direction2
  | [_], _ => [0]
  | [], _ => []

/-- calc_speed_profile: direction-aware signed target speed per sample,
with the direction flag initialized to 1.0 (forward). -/
noncomputable def calc_speed_profile (cx cy cyaw : List ℝ) (ts : ℝ) :
    List ℝ :=
  spLoop ts (cx.zip (cy.zip cyaw)) 1

/-- Counterexample to claim C4: on the axis-aligned path
cx = [0, -1, -2], cy = [0, 0, 0], cyaw = [0, 0, 0] with target speed 1,
the movement direction of segment 0 differs from the reference heading
by pi, strictly more than pi/4, yet the code keeps the forward
classification (dy = 0 skips the direction update) and assigns +1, not
the -1 the claim requires. -/
theorem C4_counterexample :
    Real.pi / 4 < |pi_2_pi (atan2 ((0 : ℝ) - 0) ((-1) - 0) - 0)| ∧
    (calc_speed_profile [0, -1, -2] [0, 0, 0] [0, 0, 0] 1).getD 0 0 ≠ -1 := by
  have hpi := Real.pi_pos
  have hatan : atan2 ((0 : ℝ) - 0) ((-1) - 0) = Real.pi := by
    unfold atan2
    norm_num
  have hwrap : pi_2_pi (Real.pi - 0) = Real.pi := by
    unfold pi_2_pi
    rw [sub_zero]
    rw [if_neg (by linarith), if_neg (by linarith)]
  constructor
  · rw [hatan, hwrap, abs_of_pos hpi]
    linarith
  · show (spLoop 1 ([0, -1, -2].zip ([0, 0, 0].zip [0, 0, 0])) 1).getD 0 0
        ≠ -1
    rw [show ([0, -1, -2].zip ([(0 : ℝ), 0, 0].zip [(0 : ℝ), 0, 0]))
        = [((0 : ℝ), (0 : ℝ), (0 : ℝ)), (-1, 0, 0), (-2, 0, 0)] from rfl]
    rw [spLoop]
    have hgate : ¬(((-1 : ℝ) - 0 ≠ 0) ∧ ((0 : ℝ) - 0 ≠ 0)) := by
      norm_num
    rw [if_neg hgate, if_neg (by norm_num : ¬((1 : ℝ) ≠ 1))]
    norm_num

lemma spLoop_getD :
    ∀ (i : ℕ) (ps : List (ℝ × ℝ × ℝ)) (dir ts : ℝ),
    i + 1 < ps.length →
    (ps.getD (i + 1) (0, 0, 0)).1 - (ps.getD i (0, 0, 0)).1 ≠ 0 →
    (ps.getD (i + 1) (0, 0, 0)).2.1 - (ps.getD i (0, 0, 0)).2.1 ≠ 0 →
    (spLoop ts ps dir).getD i 0 =
      if |pi_2_pi (atan2
            ((ps.getD (i + 1) (0, 0, 0)).2.1 - (ps.getD i (0, 0, 0)).2.1)
            ((ps.getD (i + 1) (0, 0, 0)).1 - (ps.getD i (0, 0, 0)).1)
          - (ps.getD i (0, 0, 0)).2.2)| ≥ Real.pi / 4
      then -ts else ts := by
  intro i
  induction i with
  | zero =>
    intro ps dir ts hlen hdx hdy
    rcases ps with _ | ⟨⟨x0, y0, w0⟩, _ | ⟨⟨x1, y1, w1⟩, rest⟩⟩
    · exact absurd hlen (by simp)
    · exact absurd hlen (by simp)
    · simp only [List.getD_cons_zero, List.getD_cons_succ] at hdx hdy ⊢
      rw [spLoop]
      simp only [List.getD_cons_zero]
      have hg : (if (x1 - x0 ≠ 0 ∧ y1 - y0 ≠ 0) then
          (if |pi_2_pi (atan2 (y1 - y0) (x1 - x0) - w0)| ≥ Real.pi / 4
            then (-1 : ℝ) else 1) else dir)
          = (if |pi_2_pi (atan2 (y1 - y0) (x1 - x0) - w0)| ≥ Real.pi / 4
            then (-1 : ℝ) else 1) := if_pos ⟨hdx, hdy⟩
      rw [hg]
      by_cases hC : |pi_2_pi (atan2 (y1 - y0) (x1 - x0) - w0)| ≥ Real.pi / 4
      · rw [if_pos hC, if_pos hC, if_pos (by norm_num : (-1 : ℝ) ≠ 1)]
      · rw [if_neg hC, if_neg hC, if_neg (by norm_num : ¬((1 : ℝ) ≠ 1))]
  | succ n ih =>
    intro ps dir ts hlen hdx hdy
    rcases ps with _ | ⟨⟨x0, y0, w0⟩, _ | ⟨⟨x1, y1, w1⟩, rest⟩⟩
    · exact absurd hlen (by simp)
    · simp only [List.length_cons, List.length_nil] at hlen
      omega
    · simp only [List.getD_cons_succ] at hdx hdy ⊢
      rw [spLoop]
      simp only [List.getD_cons_succ]
      apply ih
      · simp only [List.length_cons] at hlen ⊢
        omega
      · exact hdx
      · exact hdy

lemma zip3_getD (cx cy cyaw : List ℝ) (i : ℕ)
    (h2 : cy.length = cx.length) (h3 : cyaw.length = cx.length)
    (hi : i < cx.length) :
    (cx.zip (cy.zip cyaw)).getD i (0, 0, 0)
      = (cx.getD i 0, cy.getD i 0, cyaw.getD i 0) := by
  induction cx generalizing cy cyaw i with
  | nil => simp at hi
  | cons x xs ihx =>
    match cy, cyaw with
    | y :: ys, w :: ws =>
      cases i with
      | zero => simp
      | succ n =>
        simp only [List.zip_cons_cons, List.getD_cons_succ]
        apply ihx
        · simpa using h2
        · simpa using h3
        · simpa using Nat.lt_of_succ_lt_succ hi

/-- Claim C4 amended: for every non-final sample i whose segment has
both a nonzero x-displacement and a nonzero y-displacement, the profile
entry is -target_speed when the movement direction differs from the
reference heading, wrapped to (-pi, pi], by at least pi/4 in absolute
value, and +target_speed otherwise.  (Axis-aligned segments instead
inherit the previous classification, and the threshold is inclusive.) -/
theorem C4_speed_profile_reversal (cx cy cyaw : List ℝ) (ts : ℝ) (i : ℕ)
    (h2 : cy.length = cx.length) (h3 : cyaw.length = cx.length)
    (hi : i + 1 < cx.length)
    (hdx : cx.getD (i + 1) 0 - cx.getD i 0 ≠ 0)
    (hdy : cy.getD (i + 1) 0 - cy.getD i 0 ≠ 0) :
    (calc_speed_profile cx cy cyaw ts).getD i 0 =
      if |pi_2_pi (atan2 (cy.getD (i + 1) 0 - cy.getD i 0)
            (cx.getD (i + 1) 0 - cx.getD i 0) - cyaw.getD i 0)|
          ≥ Real.pi / 4
      then -ts else ts := by
  have hzlen : (cx.zip (cy.zip cyaw)).length = cx.length := by
    simp [List.length_zip, h2, h3]
  have e1 := zip3_getD cx cy cyaw i h2 h3 (by omega)
  have e2 := zip3_getD cx cy cyaw (i + 1) h2 h3 hi
  have := spLoop_getD i (cx.zip (cy.zip cyaw)) 1 ts
    (by rw [hzlen]; exact hi)
    (by rw [e1, e2]; exact hdx)
    (by rw [e1, e2]; exact hdy)
  rw [e1, e2] at this
  exact this

/-- Witness for the amended C4 on the diagonal segment from (0, 0) to
(1, 1) with heading 0: the angular difference is pi/4, so the entry is
the reverse speed. -/
theorem C4_witness :
    ((1 : ℝ) - 0 ≠ 0) ∧
    (calc_speed_profile [0, 1] [0, 1] [0, 0] 2).getD 0 0 =
      if |pi_2_pi (atan2 ((1 : ℝ) - 0) ((1 : ℝ) - 0) - 0)| ≥ Real.pi / 4
      then -2 else 2 := by
  have h1 : (1 : ℝ) - 0 ≠ 0 := by norm_num
  have h := C4_speed_profile_reversal [0, 1] [0, 1] [0, 0] 2 0
    rfl rfl (by norm_num) (by norm_num) (by norm_num)
  constructor
  · exact h1
  · simpa using h

/-- Clamped look-ahead index: min(ind + int(round(travel / dl)), length - 1)
from the horizon loop of calc_optimal_trajectory_in_T_step. -/
noncomputable def optIndex (ind length : ℕ) (travel dl : ℝ) : ℤ :=
  min ((ind : ℤ) + pyRound (travel / dl)) ((length : ℤ) - 1)

/-- Write one horizon column of z_opt: rows 0..3 of column i receive the
path sample at idx, other entries are unchanged. -/
noncomputable def optWrite (cx cy cyaw sp : List ℝ) (idx : ℤ) (i : ℕ)
    (z : ℕ → ℕ → ℝ) : ℕ → ℕ → ℝ :=
  fun r c =>
    if c = i then
      if r = 0 then pyGet cx idx
      else if r = 1 then pyGet cy idx
      else if r = 2 then pyGet sp idx
      else if r = 3 then pyGet cyaw idx
      else z r c
    else z r c

/-- Write d_opt[0, i] = 0. -/
noncomputable def dWrite (i : ℕ) (d : ℕ → ℝ) : ℕ → ℝ :=
  fun c => if c = i then 0 else d c

/-- Horizon loop of calc_optimal_trajectory_in_T_step: per step, advance
travel by abs v * dt, convert to a clamped sample index, and write the
column. -/
noncomputable def optLoop (cx cy cyaw sp : List ℝ) (dl v : ℝ)
    (ind length : ℕ) :
    ℕ → ℕ → ℝ → (ℕ → ℕ → ℝ) → (ℕ → ℝ) → (ℕ → ℕ → ℝ) × (ℕ → ℝ)
  | 0, _, _, z, d => (z, d)
  | n + 1, i, travel, z, d =>
    optLoop cx cy cyaw sp dl v ind length n (i + 1) (travel + |v| * P.dt)
      (optWrite cx cy cyaw sp
        (optIndex ind length (travel + |v| * P.dt) dl) i z)
      (dWrite i d)

/-- calc_optimal_trajectory_in_T_step: nearest-index lookup, the column-0
seed assignment (overwritten by the i = 0 loop step), then the T + 1
horizon steps.  z rows are [x, y, target speed, yaw]; the result carries
the z matrix, the nearest index, d_opt and the PATH with its advanced
cursor. -/
noncomputable def calc_optimal_trajectory_in_T_step (node : Node)
    (ref_path : PATH) (sp : List ℝ) (dl : ℝ) :
    (ℕ → ℕ → ℝ) × ℕ × (ℕ → ℝ) × PATH :=
  let length := ref_path.length
  let res := ref_path.nearest_index node
  let ind := res.1.1
  let z0 : ℕ → ℕ → ℝ := fun r c =>
    if c = 0 then
      if r = 0 then ref_path.cx.getD ind 0
      else if r = 1 then ref_path.cy.getD ind 0
      else if r = 2 then sp.getD ind 0
      else if r = 3 then ref_path.cyaw.getD ind 0
      else 0
    else 0
  let d0 : ℕ → ℝ := fun _ => 0
  let zd := optLoop ref_path.cx ref_path.cy ref_path.cyaw sp dl node.v
    ind length (P.T + 1) 0 0 z0 d0
  (zd.1, ind, zd.2, res.2)

lemma optLoop_untouched (cx cy cyaw sp : List ℝ) (dl v : ℝ)
    (ind length : ℕ) :
    ∀ (n i : ℕ) (travel : ℝ) (z : ℕ → ℕ → ℝ) (d : ℕ → ℝ) (r c : ℕ),
    c < i →
    (optLoop cx cy cyaw sp dl v ind length n i travel z d).1 r c = z r c ∧
    (optLoop cx cy cyaw sp dl v ind length n i travel z d).2 c = d c := by
  intro n
  induction n with
  | zero => intro i travel z d r c _; exact ⟨rfl, rfl⟩
  | succ m ih =>
    intro i travel z d r c hc
    rw [optLoop]
    constructor
    · rw [(ih (i + 1) (travel + |v| * P.dt) _ _ r c (by omega)).1]
      unfold optWrite
      rw [if_neg (by omega : ¬c = i)]
    · rw [(ih (i + 1) (travel + |v| * P.dt) _ _ r c (by omega)).2]
      unfold dWrite
      rw [if_neg (by omega : ¬c = i)]

lemma optLoop_col (cx cy cyaw sp : List ℝ) (dl v : ℝ) (ind length : ℕ) :
    ∀ (n i : ℕ) (travel : ℝ) (z : ℕ → ℕ → ℝ) (d : ℕ → ℝ) (k : ℕ),
    k < n →
    (optLoop cx cy cyaw sp dl v ind length n i travel z d).1 0 (i + k)
      = pyGet cx (optIndex ind length
          (travel + ((k : ℝ) + 1) * (|v| * P.dt)) dl) ∧
    (optLoop cx cy cyaw sp dl v ind length n i travel z d).1 1 (i + k)
      = pyGet cy (optIndex ind length
          (travel + ((k : ℝ) + 1) * (|v| * P.dt)) dl) ∧
    (optLoop cx cy cyaw sp dl v ind length n i travel z d).1 2 (i + k)
      = pyGet sp (optIndex ind length
          (travel + ((k : ℝ) + 1) * (|v| * P.dt)) dl) ∧
    (optLoop cx cy cyaw sp dl v ind length n i travel z d).1 3 (i + k)
      = pyGet cyaw (optIndex ind length
          (travel + ((k : ℝ) + 1) * (|v| * P.dt)) dl) ∧
    (optLoop cx cy cyaw sp dl v ind length n i travel z d).2 (i + k)
      = 0 := by
  intro n
  induction n with
  | zero => intro i travel z d k hk; omega
  | succ m ih =>
    intro i travel z d k hk
    cases k with
    | zero =>
      rw [optLoop]
      have harg : travel + (((0 : ℕ) : ℝ) + 1) * (|v| * P.dt)
          = travel + |v| * P.dt := by push_cast; ring
      have hu := fun r => optLoop_untouched cx cy cyaw sp dl v ind length
        m (i + 1) (travel + |v| * P.dt)
        (optWrite cx cy cyaw sp
          (optIndex ind length (travel + |v| * P.dt) dl) i z)
        (dWrite i d) r (i + 0) (by omega)
      refine ⟨?_, ?_, ?_, ?_, ?_⟩
      · rw [(hu 0).1, harg]
        unfold optWrite
        rw [if_pos (by omega : i + 0 = i), if_pos rfl]
      · rw [(hu 1).1, harg]
        unfold optWrite
        rw [if_pos (by omega : i + 0 = i), if_neg (by omega : ¬(1 : ℕ) = 0),
          if_pos rfl]
      · rw [(hu 2).1, harg]
        unfold optWrite
        rw [if_pos (by omega : i + 0 = i), if_neg (by omega : ¬(2 : ℕ) = 0),
          if_neg (by omega : ¬(2 : ℕ) = 1), if_pos rfl]
      · rw [(hu 3).1, harg]
        unfold optWrite
        rw [if_pos (by omega : i + 0 = i), if_neg (by omega : ¬(3 : ℕ) = 0),
          if_neg (by omega : ¬(3 : ℕ) = 1), if_neg (by omega : ¬(3 : ℕ) = 2),
          if_pos rfl]
      · rw [(hu 0).2]
        unfold dWrite
        rw [if_pos (by omega : i + 0 = i)]
    | succ k2 =>
      rw [optLoop]
      have hsh : i + (k2 + 1) = (i + 1) + k2 := by omega
      have harg : (travel + |v| * P.dt) + ((k2 : ℝ) + 1) * (|v| * P.dt)
          = travel + (((k2 + 1 : ℕ) : ℝ) + 1) * (|v| * P.dt) := by
        push_cast; ring
      have := ih (i + 1) (travel + |v| * P.dt)
        (optWrite cx cy cyaw sp
          (optIndex ind length (travel + |v| * P.dt) dl) i z)
        (dWrite i d) k2 (by omega)
      rw [hsh]
      rw [harg] at this
      exact this

/-- Claim C5: every horizon column i (0 ≤ i ≤ T) of z_opt holds the path
sample (x, y, target speed, yaw) at the clamped index
min(nearest_index + round(cumulative_travel / dl), length - 1), where the
cumulative travel is incremented by abs v * dt once per horizon step,
step 0 included (so column i uses (i + 1) increments); d_opt is 0 at
every horizon step, and the returned index is the nearest-index result. -/
theorem C5_horizon_reference_extraction (node : Node) (p : PATH)
    (sp : List ℝ) (dl : ℝ) (i : ℕ) (hi : i ≤ P.T) :
    (calc_optimal_trajectory_in_T_step node p sp dl).1 0 i
      = pyGet p.cx (optIndex (p.nearest_index node).1.1 p.length
          (((i : ℝ) + 1) * (|node.v| * P.dt)) dl) ∧
    (calc_optimal_trajectory_in_T_step node p sp dl).1 1 i
      = pyGet p.cy (optIndex (p.nearest_index node).1.1 p.length
          (((i : ℝ) + 1) * (|node.v| * P.dt)) dl) ∧
    (calc_optimal_trajectory_in_T_step node p sp dl).1 2 i
      = pyGet sp (optIndex (p.nearest_index node).1.1 p.length
          (((i : ℝ) + 1) * (|node.v| * P.dt)) dl) ∧
    (calc_optimal_trajectory_in_T_step node p sp dl).1 3 i
      = pyGet p.cyaw (optIndex (p.nearest_index node).1.1 p.length
          (((i : ℝ) + 1) * (|node.v| * P.dt)) dl) ∧
    (calc_optimal_trajectory_in_T_step node p sp dl).2.2.1 i = 0 ∧
    (calc_optimal_trajectory_in_T_step node p sp dl).2.1
      = (p.nearest_index node).1.1 := by
  have h := optLoop_col p.cx p.cy p.cyaw sp dl node.v
    (p.nearest_index node).1.1 p.length (P.T + 1) 0 0
    (fun r c =>
      if c = 0 then
        if r = 0 then p.cx.getD (p.nearest_index node).1.1 0
        else if r = 1 then p.cy.getD (p.nearest_index node).1.1 0
        else if r = 2 then sp.getD (p.nearest_index node).1.1 0
        else if r = 3 then p.cyaw.getD (p.nearest_index node).1.1 0
        else 0
      else 0)
    (fun _ => 0) i (by omega)
  rw [Nat.zero_add, zero_add] at h
  exact ⟨h.1, h.2.1, h.2.2.1, h.2.2.2.1, h.2.2.2.2, rfl⟩

/-- Witness for C5 at horizon step 0 on a one-sample path. -/
theorem C5_witness :
    (0 : ℕ) ≤ P.T ∧
    (calc_optimal_trajectory_in_T_step ⟨0, 0, 0, 0, 1⟩
        ⟨[0], [0], [0], [0], 0⟩ [0] 1).2.2.1 0 = 0 := by
  have h0 : (0 : ℕ) ≤ P.T := Nat.zero_le _
  exact ⟨h0, (C5_horizon_reference_extraction ⟨0, 0, 0, 0, 1⟩
    ⟨[0], [0], [0], [0], 0⟩ [0] 1 0 h0).2.2.2.2.1⟩

/-- Write the state of node into column i of z_bar (rows 0..3). -/
noncomputable def predWrite (node : Node) (i : ℕ) (zb : ℕ → ℕ → ℝ) :
    ℕ → ℕ → ℝ :=
  fun r c =>
    if c = i then
      if r = 0 then node.x
      else if r = 1 then node.y
      else if r = 2 then node.v
      else if r = 3 then node.yaw
      else zb r c
    else zb r c

/-- Loop body of predict_model: per control pair, advance the node with
forward gear (direct = 1.0) and record its state in the next column. -/
noncomputable def predictLoop :
    Node → List (ℝ × ℝ) → ℕ → (ℕ → ℕ → ℝ) → (ℕ → ℕ → ℝ)
  | _, [], _, zb => zb
  | node, (ai, di) :: rest, i, zb =>
    predictLoop (node.update ai di 1) rest (i + 1)
      (predWrite (node.update ai di 1) i zb)

/-- The node predict_model builds from z0 = [x, y, v, yaw]: keyword
arguments x = z0[0], y = z0[1], v = z0[2], yaw = z0[3], gear left at the
constructor default 1.0. -/
noncomputable def predictNode0 (z0 : List ℝ) : Node :=
  { x := z0.getD 0 0, y := z0.getD 1 0, yaw := z0.getD 3 0,
    v := z0.getD 2 0, direct := 1 }

/-- predict_model: z_bar starts as z_opt * 0.0, column 0 receives z0,
and the zip of the control lists with range(1, T + 1) drives the forward
simulation that fills the remaining columns. -/
noncomputable def predict_model (z0 a delta : List ℝ)
    (z_opt : ℕ → ℕ → ℝ) : ℕ → ℕ → ℝ :=
  predictLoop (predictNode0 z0) ((a.zip delta).take P.T) 1
    (fun r c =>
      if c = 0 ∧ r < z0.length then z0.getD r 0 else z_opt r c * 0.0)

/-- Forward simulation of the nonlinear model with forward gear over a
control sequence, the reference for the predict_model columns. -/
noncomputable def simNode (n : Node) (ps : List (ℝ × ℝ)) : Node :=
  ps.foldl (fun m p => m.update p.1 p.2 1) n

lemma predictLoop_untouched :
    ∀ (ps : List (ℝ × ℝ)) (node : Node) (i : ℕ) (zb : ℕ → ℕ → ℝ)
      (r c : ℕ), c < i → predictLoop node ps i zb r c = zb r c := by
  intro ps
  induction ps with
  | nil => intro node i zb r c _; rfl
  | cons p rest ih =>
    intro node i zb r c hc
    obtain ⟨ai, di⟩ := p
    rw [predictLoop]
    rw [ih _ (i + 1) _ r c (by omega)]
    unfold predWrite
    rw [if_neg (by omega : ¬c = i)]

lemma predictLoop_col :
    ∀ (ps : List (ℝ × ℝ)) (node : Node) (i : ℕ) (zb : ℕ → ℕ → ℝ)
      (k : ℕ), k < ps.length →
      predictLoop node ps i zb 0 (i + k)
          = (simNode node (ps.take (k + 1))).x ∧
      predictLoop node ps i zb 1 (i + k)
          = (simNode node (ps.take (k + 1))).y ∧
      predictLoop node ps i zb 2 (i + k)
          = (simNode node (ps.take (k + 1))).v ∧
      predictLoop node ps i zb 3 (i + k)
          = (simNode node (ps.take (k + 1))).yaw := by
  intro ps
  induction ps with
  | nil => intro node i zb k hk; simp at hk
  | cons p rest ih =>
    intro node i zb k hk
    obtain ⟨ai, di⟩ := p
    rw [predictLoop]
    have hsim : ∀ m, simNode node (((ai, di) :: rest).take (m + 1))
        = simNode (node.update ai di 1) (rest.take m) := by
      intro m
      rfl
    cases k with
    | zero =>
      have hu := fun r => predictLoop_untouched rest
        (node.update ai di 1) (i + 1)
        (predWrite (node.update ai di 1) i zb) r (i + 0) (by omega)
      rw [hsim 0]
      refine ⟨?_, ?_, ?_, ?_⟩
      · rw [hu 0]
        unfold predWrite
        rw [if_pos (by omega : i + 0 = i), if_pos rfl]
        simp [simNode]
      · rw [hu 1]
        unfold predWrite
        rw [if_pos (by omega : i + 0 = i),
          if_neg (by omega : ¬(1 : ℕ) = 0), if_pos rfl]
        simp [simNode]
      · rw [hu 2]
        unfold predWrite
        rw [if_pos (by omega : i + 0 = i),
          if_neg (by omega : ¬(2 : ℕ) = 0),
          if_neg (by omega : ¬(2 : ℕ) = 1), if_pos rfl]
        simp [simNode]
      · rw [hu 3]
        unfold predWrite
        rw [if_pos (by omega : i + 0 = i),
          if_neg (by omega : ¬(3 : ℕ) = 0),
          if_neg (by omega : ¬(3 : ℕ) = 1),
          if_neg (by omega : ¬(3 : ℕ) = 2), if_pos rfl]
        simp [simNode]
    | succ k2 =>
      have hsh : i + (k2 + 1) = (i + 1) + k2 := by omega
      have := ih (node.update ai di 1) (i + 1)
        (predWrite (node.update ai di 1) i zb) k2
        (by simp at hk; omega)
      rw [hsh, hsim (k2 + 1)]
      exact this

/-- Claim C10: predict_model reads nothing but the shape of z_opt (its
value is unchanged when z_opt is replaced, matching the fresh
z_bar = z_opt * 0.0 array), column 0 is exactly the initial state z0,
and every later column within the zipped control range is the nonlinear
forward simulation with gear fixed at direct = 1. -/
theorem C10_predict_model_pure (z0 a delta : List ℝ)
    (z_opt z_opt2 : ℕ → ℕ → ℝ) :
    (predict_model z0 a delta z_opt = predict_model z0 a delta z_opt2) ∧
    (∀ r, r < z0.length → predict_model z0 a delta z_opt r 0
        = z0.getD r 0) ∧
    (∀ k, k < ((a.zip delta).take P.T).length →
      predict_model z0 a delta z_opt 0 (1 + k)
          = (simNode (predictNode0 z0)
              (((a.zip delta).take P.T).take (k + 1))).x ∧
      predict_model z0 a delta z_opt 1 (1 + k)
          = (simNode (predictNode0 z0)
              (((a.zip delta).take P.T).take (k + 1))).y ∧
      predict_model z0 a delta z_opt 2 (1 + k)
          = (simNode (predictNode0 z0)
              (((a.zip delta).take P.T).take (k + 1))).v ∧
      predict_model z0 a delta z_opt 3 (1 + k)
          = (simNode (predictNode0 z0)
              (((a.zip delta).take P.T).take (k + 1))).yaw) := by
  refine ⟨?_, ?_, ?_⟩
  · unfold predict_model
    have hz : ∀ (f : ℕ → ℕ → ℝ) (r c : ℕ), f r c * 0.0 = 0 := by
      intro f r c
      norm_num
    simp only [hz]
  · intro r hr
    unfold predict_model
    rw [predictLoop_untouched _ _ 1 _ r 0 (by omega)]
    rw [if_pos ⟨rfl, hr⟩]
  · intro k hk
    exact predictLoop_col ((a.zip delta).take P.T) (predictNode0 z0) 1 _
      k hk

/-- Witness for C10 with z0 = [1, 2, 3, 4], one control pair, and two
distinct z_opt arrays. -/
theorem C10_witness :
    predict_model [1, 2, 3, 4] [0] [0] (fun _ _ => 5)
      = predict_model [1, 2, 3, 4] [0] [0] (fun _ _ => 7) ∧
    predict_model [1, 2, 3, 4] [0] [0] (fun _ _ => 5) 0 0 = 1 := by
  have h := C10_predict_model_pure [1, 2, 3, 4] [0] [0]
    (fun _ _ => 5) (fun _ _ => 7)
  refine ⟨h.1, ?_⟩
  have h2 := h.2.1 0 (by norm_num)
  simpa using h2

/-- Status values the cvxpy problem.solve boundary can report. -/
inductive CvxpyStatus
  | optimal
  | optimal_inaccurate
  | infeasible
  | infeasible_inaccurate
  | unbounded
  | unbounded_inaccurate
  | solver_error
deriving DecidableEq

/-- What the opaque QP solve call returns: a status plus the values of
the state variable z (4 x (T+1)) and control variable u (2 x T). -/
structure QPSolution where
  status : CvxpyStatus
  zval : ℕ → ℕ → ℝ
  uval : ℕ → ℕ → ℝ

/-- Output tuple of solve_linear_mpc: (oa, odelta, ox, oy, oyaw, ov). -/
abbrev MPCOut :=
  List ℝ × List ℝ × List ℝ × List ℝ × List ℝ × List ℝ

/-- Result dispatch of solve_linear_mpc.  The QP assembly and the
prob.solve call are the external solver boundary, abstracted as the
QPSolution it produces; the embedded code is the status test of the
source: on OPTIMAL or OPTIMAL_INACCURATE the flattened rows are
returned, otherwise every output is None (here: none). -/
noncomputable def solve_linear_mpc (sol : QPSolution) : Option MPCOut :=
  if sol.status = CvxpyStatus.optimal ∨
      sol.status = CvxpyStatus.optimal_inaccurate then
    some ((List.range P.T).map (sol.uval 0),
          (List.range P.T).map (sol.uval 1),
          (List.range (P.T + 1)).map (sol.zval 0),
          (List.range (P.T + 1)).map (sol.zval 1),
          (List.range (P.T + 1)).map (sol.zval 3),
          (List.range (P.T + 1)).map (sol.zval 2))
  else none

/-- Counterexample to claim C3: a solve with status inaccurate-optimal
is accepted by the code (a trajectory is returned), while the claim
requires a SolveFailure for every status other than optimal. -/
theorem C3_counterexample :
    CvxpyStatus.optimal_inaccurate ≠ CvxpyStatus.optimal ∧
    solve_linear_mpc
      ⟨CvxpyStatus.optimal_inaccurate, fun _ _ => 0, fun _ _ => 0⟩
      ≠ none := by
  constructor
  · intro h
    exact CvxpyStatus.noConfusion h
  · unfold solve_linear_mpc
    rw [if_pos (Or.inr rfl)]
    simp

/-- Claim C3 amended: solve_linear_mpc signals SolveFailure (all outputs
None) exactly when the solver status is neither optimal nor
inaccurate-optimal; inaccurate-optimal is treated as success. -/
theorem C3_solve_failure_condition (sol : QPSolution) :
    solve_linear_mpc sol = none ↔
      sol.status ≠ CvxpyStatus.optimal ∧
      sol.status ≠ CvxpyStatus.optimal_inaccurate := by
  unfold solve_linear_mpc
  split
  · next h =>
    constructor
    · intro habs
      exact absurd habs (by simp)
    · intro hcon
      exfalso
      rcases h with h | h
      · exact hcon.1 h
      · exact hcon.2 h
  · next h =>
    push_neg at h
    simpa using h

/-- The candidate control pair (oa, od) threaded through the outer
successive-linearization loop. -/
abbrev Ctrl := List ℝ × List ℝ

/-- Summed elementwise absolute difference, sum(abs(a - b)). -/
noncomputable def l1diff (a b : List ℝ) : ℝ :=
  (List.zipWith (fun x y => |x - y|) a b).sum

/-- The du convergence measure of one outer iteration:
sum(abs(oa - poa)) + sum(abs(od - pod)). -/
noncomputable def duVal (r : MPCOut) (c : Ctrl) : ℝ :=
  l1diff r.1 c.1 + l1diff r.2.1 c.2

/-- The for-loop of linear_mpc_control with fuel counting the remaining
iterations after the current one (MAX_ITER iterations in total).  When
the solve returns None, the next line of the source subtracts None from
a list inside du, which raises a TypeError; that crash is the error
outcome. -/
noncomputable def mpcLoop (step : Ctrl → Option MPCOut) :
    ℕ → Ctrl → Except Unit MPCOut
  | 0, c =>
    match step c with
    | none => Except.error ()
    | some r => Except.ok r
  | n + 1, c =>
    match step c with
    | none => Except.error ()
    | some r =>
      if duVal r c ≤ P.DU_TH then Except.ok r
      else mpcLoop step n (r.1, r.2.1)

/-- One predict-then-solve step of the outer loop: forward-simulate the
candidate controls into z_bar, hand it to the external QP (qp), and
post-process the returned status. -/
noncomputable def mpcStep (qp : (ℕ → ℕ → ℝ) → QPSolution)
    (z_opt : ℕ → ℕ → ℝ) (z0 : List ℝ) : Ctrl → Option MPCOut :=
  fun c => solve_linear_mpc (qp (predict_model z0 c.1 c.2 z_opt))

/-- Warm-start seeding: with either control list missing, both are
re-initialized to T zeros. -/
noncomputable def seedCtrl (oa od : Option (List ℝ)) : Ctrl :=
  match oa, od with
  | some a, some d => (a, d)
  | _, _ => (List.replicate P.T 0, List.replicate P.T 0)

/-- linear_mpc_control: seed the candidate controls, then run at most
MAX_ITER predict/linearize/solve iterations. -/
noncomputable def linear_mpc_control (qp : (ℕ → ℕ → ℝ) → QPSolution)
    (z_opt : ℕ → ℕ → ℝ) (z0 : List ℝ) (oa od : Option (List ℝ)) :
    Except Unit MPCOut :=
  mpcLoop (mpcStep qp z_opt z0) (P.MAX_ITER - 1) (seedCtrl oa od)

lemma mpcLoop_none (step : Ctrl → Option MPCOut) (n : ℕ) (c : Ctrl)
    (h : step c = none) : mpcLoop step n c = Except.error () := by
  cases n <;> rw [mpcLoop, h]

/-- Claim C1 (code behavior at the failing input): when every QP solve
reports infeasible, linear_mpc_control does not return a zero-control
fallback; it crashes (TypeError on oa - poa with oa = None), for any
warm start and tick inputs. -/
theorem C1_solver_failure_crashes (z_opt : ℕ → ℕ → ℝ) (z0 : List ℝ)
    (oa od : Option (List ℝ)) (zv uv : ℕ → ℕ → ℝ) :
    linear_mpc_control (fun _ => ⟨CvxpyStatus.infeasible, zv, uv⟩)
      z_opt z0 oa od = Except.error () := by
  unfold linear_mpc_control
  apply mpcLoop_none
  unfold mpcStep solve_linear_mpc
  rw [if_neg]
  rintro (h | h) <;> exact CvxpyStatus.noConfusion h

/-- Candidate control sequence across the outer iterations: iteration j
consumes ctrlSeq j and produces the controls of ctrlSeq (j + 1). -/
noncomputable def ctrlSeq (step : Ctrl → Option MPCOut) (c : Ctrl) :
    ℕ → Ctrl
  | 0 => c
  | n + 1 =>
    match step (ctrlSeq step c n) with
    | some r => (r.1, r.2.1)
    | none => ctrlSeq step c n

/-- The du value of outer iteration n. -/
noncomputable def duSeq (step : Ctrl → Option MPCOut) (c : Ctrl)
    (n : ℕ) : ℝ :=
  match step (ctrlSeq step c n) with
  | some r => duVal r (ctrlSeq step c n)
  | none => 0

lemma ctrlSeq_shift (step : Ctrl → Option MPCOut) (c : Ctrl)
    (r : MPCOut) (h : step c = some r) :
    ∀ j, ctrlSeq step c (j + 1) = ctrlSeq step (r.1, r.2.1) j := by
  intro j
  induction j with
  | zero =>
    simp only [ctrlSeq]
    rw [h]
  | succ m ih =>
    show (match step (ctrlSeq step c (m + 1)) with
          | some r2 => (r2.1, r2.2.1)
          | none => ctrlSeq step c (m + 1)) =
        (match step (ctrlSeq step (r.1, r.2.1) m) with
          | some r2 => (r2.1, r2.2.1)
          | none => ctrlSeq step (r.1, r.2.1) m)
    rw [ih]

lemma duSeq_shift (step : Ctrl → Option MPCOut) (c : Ctrl) (r : MPCOut)
    (h : step c = some r) (j : ℕ) :
    duSeq step c (j + 1) = duSeq step (r.1, r.2.1) j := by
  unfold duSeq
  rw [ctrlSeq_shift step c r h j]

lemma mpcLoop_spec (step : Ctrl → Option MPCOut)
    (htot : ∀ c, (step c).isSome) :
    ∀ (fuel : ℕ) (c : Ctrl),
    ∃ k ≤ fuel, ∃ r, step (ctrlSeq step c k) = some r ∧
      mpcLoop step fuel c = Except.ok r ∧
      (∀ j < k, P.DU_TH < duSeq step c j) ∧
      (duSeq step c k ≤ P.DU_TH ∨ k = fuel) := by
  intro fuel
  induction fuel with
  | zero =>
    intro c
    obtain ⟨r, hr⟩ := Option.isSome_iff_exists.mp (htot c)
    refine ⟨0, le_refl 0, r, hr, ?_, ?_, Or.inr rfl⟩
    · rw [mpcLoop, hr]
    · intro j hj
      omega
  | succ m ih =>
    intro c
    obtain ⟨r, hr⟩ := Option.isSome_iff_exists.mp (htot c)
    by_cases hdu : duVal r c ≤ P.DU_TH
    · refine ⟨0, by omega, r, hr, ?_, ?_, Or.inl ?_⟩
      · rw [mpcLoop, hr]
        show (if duVal r c ≤ P.DU_TH then Except.ok r
              else mpcLoop step m (r.1, r.2.1)) = Except.ok r
        rw [if_pos hdu]
      · intro j hj
        omega
      · show duSeq step c 0 ≤ P.DU_TH
        unfold duSeq
        rw [show ctrlSeq step c 0 = c from rfl, hr]
        exact hdu
    · obtain ⟨k, hk, r2, hstep, hloop, hgt, hlast⟩ := ih (r.1, r.2.1)
      refine ⟨k + 1, by omega, r2, ?_, ?_, ?_, ?_⟩
      · rw [ctrlSeq_shift step c r hr k]
        exact hstep
      · rw [mpcLoop, hr]
        show (if duVal r c ≤ P.DU_TH then Except.ok r
              else mpcLoop step m (r.1, r.2.1)) = Except.ok r2
        rw [if_neg hdu]
        exact hloop
      · intro j hj
        cases j with
        | zero =>
          unfold duSeq
          rw [show ctrlSeq step c 0 = c from rfl, hr]
          exact lt_of_not_le hdu
        | succ j2 =>
          rw [duSeq_shift step c r hr j2]
          exact hgt j2 (by omega)
      · rcases hlast with h | h
        · exact Or.inl (by rw [duSeq_shift step c r hr k]; exact h)
        · exact Or.inr (by omega)

/-- Claim C7: with a QP boundary that always reports an accepted status,
linear_mpc_control performs at most MAX_ITER iterations; it returns the
candidate of the first iteration whose du is at or below DU_TH, every
earlier iteration having du above DU_TH, and when no iteration converges
it still returns the candidate of the last (MAX_ITER-th) iteration. -/
theorem C7_iteration_budget (qp : (ℕ → ℕ → ℝ) → QPSolution)
    (z_opt : ℕ → ℕ → ℝ) (z0 : List ℝ) (oa od : Option (List ℝ))
    (hok : ∀ zb, (qp zb).status = CvxpyStatus.optimal ∨
      (qp zb).status = CvxpyStatus.optimal_inaccurate) :
    ∃ k < P.MAX_ITER, ∃ r,
      mpcStep qp z_opt z0
          (ctrlSeq (mpcStep qp z_opt z0) (seedCtrl oa od) k) = some r ∧
      linear_mpc_control qp z_opt z0 oa od = Except.ok r ∧
      (∀ j < k,
        P.DU_TH < duSeq (mpcStep qp z_opt z0) (seedCtrl oa od) j) ∧
      (duSeq (mpcStep qp z_opt z0) (seedCtrl oa od) k ≤ P.DU_TH ∨
        k = P.MAX_ITER - 1) := by
  have htot : ∀ c, ((mpcStep qp z_opt z0) c).isSome := by
    intro c
    unfold mpcStep solve_linear_mpc
    rw [if_pos (hok _)]
    rfl
  obtain ⟨k, hk, r, h1, h2, h3, h4⟩ :=
    mpcLoop_spec (mpcStep qp z_opt z0) htot (P.MAX_ITER - 1)
      (seedCtrl oa od)
  refine ⟨k, ?_, r, h1, h2, h3, h4⟩
  simp only [P.MAX_ITER] at hk ⊢
  omega

/-- Witness for C7 with an always-optimal QP boundary returning zero
values, an empty initial state and no warm start. -/
theorem C7_witness :
    (∀ zb : ℕ → ℕ → ℝ,
      ((fun _ => (⟨CvxpyStatus.optimal, fun _ _ => 0, fun _ _ => 0⟩ :
          QPSolution)) zb).status = CvxpyStatus.optimal ∨
      ((fun _ => (⟨CvxpyStatus.optimal, fun _ _ => 0, fun _ _ => 0⟩ :
          QPSolution)) zb).status = CvxpyStatus.optimal_inaccurate) ∧
    ∃ k < P.MAX_ITER, ∃ r,
      mpcStep (fun _ => ⟨CvxpyStatus.optimal, fun _ _ => 0, fun _ _ => 0⟩)
          (fun _ _ => 0) []
          (ctrlSeq (mpcStep
              (fun _ => ⟨CvxpyStatus.optimal, fun _ _ => 0, fun _ _ => 0⟩)
              (fun _ _ => 0) [])
            (seedCtrl none none) k) = some r ∧
      linear_mpc_control
          (fun _ => ⟨CvxpyStatus.optimal, fun _ _ => 0, fun _ _ => 0⟩)
          (fun _ _ => 0) [] none none = Except.ok r ∧
      (∀ j < k, P.DU_TH < duSeq (mpcStep
          (fun _ => ⟨CvxpyStatus.optimal, fun _ _ => 0, fun _ _ => 0⟩)
          (fun _ _ => 0) []) (seedCtrl none none) j) ∧
      (duSeq (mpcStep
          (fun _ => ⟨CvxpyStatus.optimal, fun _ _ => 0, fun _ _ => 0⟩)
          (fun _ _ => 0) []) (seedCtrl none none) k ≤ P.DU_TH ∨
        k = P.MAX_ITER - 1) := by
  have hok : ∀ zb : ℕ → ℕ → ℝ,
      ((fun _ => (⟨CvxpyStatus.optimal, fun _ _ => 0, fun _ _ => 0⟩ :
          QPSolution)) zb).status = CvxpyStatus.optimal ∨
      ((fun _ => (⟨CvxpyStatus.optimal, fun _ _ => 0, fun _ _ => 0⟩ :
          QPSolution)) zb).status = CvxpyStatus.optimal_inaccurate :=
    fun _ => Or.inl rfl
  exact ⟨hok, C7_iteration_budget
    (fun _ => ⟨CvxpyStatus.optimal, fun _ _ => 0, fun _ _ => 0⟩)
    (fun _ _ => 0) [] none none hok⟩
